import Mathlib

/-!
Verification of the precios-nodales data pipeline.

The development shallowly embeds the four pipeline stages
(`src/pipeline/etl.py`, `src/pipeline/clean.py`, `src/pipeline/sanity.py`,
`src/pipeline/validate.py`) as executable Lean functions over lists of
records.  Dataframes become lists of structures, nullable cells become
`Option` values, float prices become exact rationals, timestamps become
naturals, and the Validator's directory is an explicit name-to-artifact
map so that its read and write paths can alias.  Pandas
`sort_values(kind='quicksort')` is documented as unstable, so sorting is
modelled by its contract — any key-nondecreasing permutation — with a
concrete insertion sort as one representative execution.

Rational arithmetic is expressed through `mkRat`-based helpers (`qAdd`,
`qSub`, `qMul`, `qAbs`) so that every definition evaluates inside the
kernel on concrete inputs; these helpers implement exactly the field
operations of `ℚ`.
-/

/-- Kernel-computable addition on `ℚ` (the library's `Rat.add` is
irreducible); `mkRat` normalizes, so this is exact rational addition. -/
def qAdd (a b : ℚ) : ℚ := mkRat (a.num * b.den + b.num * a.den) (a.den * b.den)

/-- Kernel-computable subtraction on `ℚ`. -/
def qSub (a b : ℚ) : ℚ := mkRat (a.num * b.den - b.num * a.den) (a.den * b.den)

/-- Kernel-computable multiplication on `ℚ`. -/
def qMul (a b : ℚ) : ℚ := mkRat (a.num * b.num) (a.den * b.den)

/-- Kernel-computable absolute value on `ℚ`. -/
def qAbs (a : ℚ) : ℚ := if a < 0 then mkRat (-a.num) a.den else a

/-- The rational `n / 1`. -/
def natQ (n : Nat) : ℚ := mkRat (Int.ofNat n) 1

/-- One record of the tidy dataset (`datetime`, `nodo`, `precio`), the
canonical long format produced by the Normalizer.  `datetime` is a
timestamp encoded as a natural, `precio` is nullable (`none` = NaN). -/
structure TidyRow where
  datetime : Nat
  nodo : String
  precio : Option ℚ
deriving DecidableEq, Repr

/-- The dedup key used by `clean`: the `(datetime, nodo)` pair. -/
def keyOf (r : TidyRow) : Nat × String := (r.datetime, r.nodo)

/-- One concrete execution of `df.sort_values("datetime")` in `clean`,
used below to build the representative cleaned dataset: an insertion sort
by `datetime`.  The real call runs with pandas' default
`kind='quicksort'`, which is documented as not stable, so the code only
guarantees *some* datetime-nondecreasing permutation of the rows; any
property whose truth could depend on the order of equal-`datetime` rows
is therefore stated over every permutation the contract allows
(`SortValuesDatetime`), not over this particular execution. -/
def sortByDatetime (df : List TidyRow) : List TidyRow :=
  df.insertionSort (fun a b => a.datetime ≤ b.datetime)

/-- The contract of `df.sort_values("datetime")` with its default
unstable `kind='quicksort'`: the output is some permutation of the input
rows that is nondecreasing in `datetime`; the relative order of rows with
equal `datetime` is unspecified. -/
def SortValuesDatetime (df out : List TidyRow) : Prop :=
  out.Perm df ∧ out.Sorted (fun a b : TidyRow => a.datetime ≤ b.datetime)

instance : IsTotal TidyRow (fun a b => a.datetime ≤ b.datetime) :=
  ⟨fun a b => Nat.le_total a.datetime b.datetime⟩

instance : IsTrans TidyRow (fun a b => a.datetime ≤ b.datetime) :=
  ⟨fun _ _ _ => Nat.le_trans⟩

/-- Pandas `df.drop_duplicates(subset=["datetime", "nodo"], keep="last")`: a row
is kept exactly when no later row carries the same `(datetime, nodo)` key,
so each key's last occurrence survives at its original position. -/
def dropDupKeepLast : List TidyRow → List TidyRow
  | [] => []
  | r :: rs =>
    if rs.any (fun x => keyOf x = keyOf r) then dropDupKeepLast rs
    else r :: dropDupKeepLast rs

/-- Step 1 of `clean` under the representative execution
`sortByDatetime`: sort by `datetime`, then resolve duplicate
`(datetime, nodo)` keys keeping the last row in sort order. -/
def cleanDedup (df : List TidyRow) : List TidyRow :=
  dropDupKeepLast (sortByDatetime df)

/-- Minimum of a list of rationals (`none` on the empty list, matching
pandas `min` of an all-NaN group). -/
def listMin (xs : List ℚ) : Option ℚ :=
  xs.foldr (fun x acc => match acc with
    | none => some x
    | some y => some (if x ≤ y then x else y)) none

/-- Maximum of a list of rationals (`none` on the empty list). -/
def listMax (xs : List ℚ) : Option ℚ :=
  xs.foldr (fun x acc => match acc with
    | none => some x
    | some y => some (if x ≤ y then y else x)) none

/-- One row of the `node_quality.parquet` sidecar written by `clean`. -/
structure NodeQualityStats where
  nodo : String
  n : Nat
  n_nan : Nat
  min : Option ℚ
  max : Option ℚ
  nan_pct : ℚ
  is_dead : Bool
  is_low_coverage : Bool
deriving DecidableEq, Repr

/-- The per-node aggregation of `clean` step 2 on one `nodo` group:
`n = size`, `n_nan = isna().sum()`, `min`, `max`,
`nan_pct = (n_nan / n) * 100.0`, `is_dead = (nan_pct == 100.0)`,
`is_low_coverage = (nan_pct >= 90.0)`. -/
def mkStats (nd : String) (ps : List (Option ℚ)) : NodeQualityStats :=
  let n := ps.length
  let nnan := ps.countP (fun p => p.isNone)
  let pct := qMul (mkRat (Int.ofNat nnan) n) 100
  { nodo := nd
    n := n
    n_nan := nnan
    min := listMin (ps.filterMap id)
    max := listMax (ps.filterMap id)
    nan_pct := pct
    is_dead := decide (pct = 100)
    is_low_coverage := decide (pct ≥ 90) }

/-- The distinct `nodo` values of a tidy dataset, first occurrence first
(the key set of `df.groupby("nodo")`). -/
def nodosOf (df : List TidyRow) : List String := (df.map (fun r => r.nodo)).dedup

/-- The `precio` column of one node's group. -/
def preciosOf (df : List TidyRow) (nd : String) : List (Option ℚ) :=
  (df.filter (fun r => r.nodo = nd)).map (fun r => r.precio)

/-- Step 2 of `clean`: the `NodeQualityStats` sidecar, one row per
distinct node of the deduplicated dataset. -/
def cleanStats (df : List TidyRow) : List NodeQualityStats :=
  (nodosOf (cleanDedup df)).map (fun nd => mkStats nd (preciosOf (cleanDedup df) nd))

/-- Python's `str.split(sep)` for a one-character separator: splits at
every occurrence, keeping empty fields (`"a  b".split(" ") = ["a","","b"]`,
`"".split(" ") = [""]`). -/
def splitCh (sep : Char) : List Char → List (List Char)
  | [] => [[]]
  | c :: rest =>
    let r := splitCh sep rest
    if c = sep then [] :: r else (c :: r.headD []) :: r.tail

/-- Function `normalize_fecha` from `etl.py`: `None` for a null cell, otherwise
`str(fecha).split(" ")[0]` — the text before the first space. -/
def normalize_fecha (fecha : Option String) : Option String :=
  match fecha with
  | none => none
  | some s => some (String.mk ((splitCh ' ' s.data).headD []))

/-- Function `normalize_hora` from `etl.py`: `None` for a null cell; otherwise, if
the text contains a space, replace it by `s.split(" ")[1]` (the second
field of the split), then truncate to the first 5 characters. -/
def normalize_hora (hora : Option String) : Option String :=
  match hora with
  | none => none
  | some s0 =>
    let s := s0.data
    let s1 := if s.any (fun c => c == ' ') then (splitCh ' ' s).getD 1 [] else s
    some (String.mk (s1.take 5))

/-- The value of a run of decimal digits (`none` if empty or non-digit). -/
def parseDigits (cs : List Char) : Option Nat :=
  if cs ≠ [] ∧ cs.all Char.isDigit then
    some (cs.foldl (fun acc c => acc * 10 + (c.toNat - 48)) 0)
  else none

/-- Models `pd.to_datetime` on the `"YYYY-MM-DD HH:MM"` strings this
pipeline constructs: a date part of digit fields `Y-M-D` with a valid
month/day and a time part `HH:MM` with a valid hour/minute parse to a
minute count; anything else (in particular a null input) is unparseable
and becomes `none` (`NaT`, since `errors="coerce"`). -/
def parseTimestamp (s : String) : Option Nat :=
  match splitCh ' ' s.data with
  | [d, t] =>
    match splitCh '-' d, splitCh ':' t with
    | [ys, mos, das], [hs, mis] =>
      match parseDigits ys, parseDigits mos, parseDigits das,
            parseDigits hs, parseDigits mis with
      | some y, some mo, some da, some hh, some mi =>
        if 1 ≤ mo ∧ mo ≤ 12 ∧ 1 ≤ da ∧ da ≤ 31 ∧ hh ≤ 23 ∧ mi ≤ 59 then
          some ((((y * 12 + mo) * 31 + da) * 24 + hh) * 60 + mi)
        else none
      | _, _, _, _, _ => none
    | _, _ => none
  | _ => none

/-- One cell of a node column in the wide spreadsheet: blank, a numeric
value, or non-numeric text (which `pd.to_numeric(errors="coerce")` turns
into null). -/
inductive CellValue where
  | null
  | num (q : ℚ)
  | text (s : String)
deriving DecidableEq, Repr

/-- Coercion `pd.to_numeric(tidy["precio"], errors="coerce")` on one cell. -/
def toNumeric : CellValue → Option ℚ
  | .null => none
  | .num q => some q
  | .text _ => none

/-- Assignment `tidy.loc[tidy["precio"] == 0, "precio"] = pd.NA`: a literal zero is
converted to null. -/
def zeroToNull (p : Option ℚ) : Option ℚ :=
  match p with
  | some q => if q = 0 then none else some q
  | none => none

/-- One raw row of the wide sheet: the `Fecha` and `Hora` cells (as the
strings `str(...)` yields, `none` when null) and the node-column cells in
column order. -/
structure RawRow where
  fecha : Option String
  hora : Option String
  cells : List CellValue
deriving DecidableEq, Repr

/-- The wide dataframe read by `run_etl` (headers already trimmed, and
`Fecha`/`Hora` present — their absence raises before any of the logic
modelled here): the node column names and the data rows. -/
structure WideDF where
  nodeCols : List String
  rows : List RawRow
deriving DecidableEq, Repr

/-- Concatenation `fecha_str + " " + hora_str` for one row: pandas propagates a null
operand, so the result is null unless both parts are non-null. -/
def rowDtStr (r : RawRow) : Option String :=
  match normalize_fecha r.fecha, normalize_hora r.hora with
  | some f, some h => some (f ++ " " ++ h)
  | _, _ => none

/-- The `datetime` column entry of one row:
`pd.to_datetime(dt_str, errors="coerce")`. -/
def rowDt (r : RawRow) : Option Nat := (rowDtStr r).bind parseTimestamp

/-- The rows whose constructed `datetime` is `NaT`
(`df[df["datetime"].isna()]`). -/
def badRows (df : WideDF) : List RawRow :=
  df.rows.filter (fun r => (rowDt r).isNone)

/-- Reshape `df.melt(id_vars=["datetime"], value_vars=node_cols, var_name="nodo",
value_name="precio")` followed by the numeric coercion and the zero-to-null
rewrite: one tidy row per (node column, raw row) pair, column-major. -/
def meltCoerce (df : WideDF) : List TidyRow :=
  ((List.range df.nodeCols.length).map (fun j =>
    df.rows.map (fun r =>
      { datetime := (rowDt r).getD 0
        nodo := df.nodeCols.getD j ""
        precio := zeroToNull (toNumeric (r.cells.getD j .null)) : TidyRow }))).flatten

/-- The error raised by `run_etl` when some datetime cannot be built
(`ValueError("No se pudo construir datetime")`), carrying the diagnostic
sample printed just before the raise: the offending `(Fecha, Hora)` pairs,
truncated to the first 10 (`.head(10)`). -/
structure DataError where
  pairs : List (Option String × Option String)
deriving DecidableEq, Repr

/-- Function `run_etl` from `etl.py` after the sheet is read: build the `datetime`
column, abort with a `DataError` if any row's datetime is unparseable,
otherwise reshape wide to tidy, coerce `precio`, null out zeros. -/
def run_etl (df : WideDF) : Except DataError (List TidyRow) :=
  if (badRows df).isEmpty then .ok (meltCoerce df)
  else .error ⟨((badRows df).map (fun r => (r.fecha, r.hora))).take 10⟩

/-- The persisted tidy artifact as the filesystem sees it. -/
structure EtlStore where
  tidy : Option (List TidyRow)
deriving DecidableEq, Repr

/-- Function `run_etl` acting on the output artifact: `tidy.to_parquet` runs only
after the datetime check has passed, so on failure the store is untouched. -/
def runEtlWrite (df : WideDF) (st : EtlStore) : EtlStore :=
  match run_etl df with
  | .ok t => ⟨some t⟩
  | .error _ => st

/-- Python's string order on code points (`<` on `str`), used to model
sorting by the `nodo` column. -/
def strLtB : List Char → List Char → Bool
  | [], [] => false
  | [], _ :: _ => true
  | _ :: _, [] => false
  | a :: as, b :: bs =>
    if a.toNat < b.toNat then true
    else if b.toNat < a.toNat then false
    else strLtB as bs

/-- The `sort_values(["nodo", "datetime"])` order of `sanity`:
lexicographic on the node name, then the timestamp. -/
def nodoDtLe (a b : TidyRow) : Prop :=
  strLtB a.nodo.data b.nodo.data = true ∨ (a.nodo = b.nodo ∧ a.datetime ≤ b.datetime)

instance : DecidableRel nodoDtLe := fun a b => by
  unfold nodoDtLe; infer_instance

/-- The per-node 99.9th percentile of `sanity`
(`df.groupby("nodo")["precio"].quantile(0.999)`): drop the nulls, sort,
and linearly interpolate at position `(n - 1) * 0.999`; an all-null group
yields NaN (`none`). -/
def quantile999 (xs : List ℚ) : Option ℚ :=
  let s := xs.insertionSort (fun a b : ℚ => a ≤ b)
  match s with
  | [] => none
  | _ :: _ =>
    let h : ℚ := qMul (qSub (natQ s.length) (natQ 1)) (mkRat 999 1000)
    let f : Nat := h.num.toNat / h.den
    let lo := s.getD f 0
    let hi := s.getD (f + 1) lo
    some (qAdd lo (qMul (qSub h (natQ f)) (qSub hi lo)))

/-- The `p999` value merged onto each row of node `nd`. -/
def nodeP999 (df : List TidyRow) (nd : String) : Option ℚ :=
  quantile999 ((df.filter (fun r => r.nodo = nd)).filterMap (fun r => r.precio))

/-- One record of the flags artifact of `sanity`: the original `datetime`,
`nodo`, `precio` plus the three anomaly flags. -/
structure FlagRow where
  datetime : Nat
  nodo : String
  precio : Option ℚ
  neg_price : Bool
  hard_outlier : Bool
  hourly_spike : Bool
deriving DecidableEq, Repr

/-- Comparison `df["precio"] < 0` on one record: a NaN comparison is `False`. -/
def negPrice (p : Option ℚ) : Bool :=
  match p with
  | some q => decide (q < 0)
  | none => false

/-- Comparison `df["precio"] > df["p999"]` on one record: `False` whenever either
side is NaN. -/
def hardOutlier (p t : Option ℚ) : Bool :=
  match p, t with
  | some q, some u => decide (q > u)
  | _, _ => false

/-- Magnitude `|curr - prev|` of the per-node first difference: NaN (`none`) if
either operand is NaN. -/
def diffAbs (prev curr : Option ℚ) : Option ℚ :=
  match prev, curr with
  | some a, some b => some (qAbs (qSub b a))
  | _, _ => none

/-- The `hourly_spike` flag of one record given the previous record of the
sorted dataset: `groupby("nodo").diff()` is NaN on the first record of a
node, `delta > 300` is `False` on NaN. -/
def spikeOf (prev : Option TidyRow) (r : TidyRow) : Bool :=
  match prev with
  | some p =>
    if p.nodo = r.nodo then
      match diffAbs p.precio r.precio with
      | some d => decide (d > 300)
      | none => false
    else false
  | none => false

/-- Walk the sorted dataset emitting one `FlagRow` per record. `p999`
gives each node's outlier threshold, `prev` the preceding sorted record. -/
def sanityFlags (p999 : String → Option ℚ) : Option TidyRow → List TidyRow → List FlagRow
  | _, [] => []
  | prev, r :: rs =>
    { datetime := r.datetime
      nodo := r.nodo
      precio := r.precio
      neg_price := negPrice r.precio
      hard_outlier := hardOutlier r.precio (p999 r.nodo)
      hourly_spike := spikeOf prev r : FlagRow } :: sanityFlags p999 (some r) rs

/-- Function `sanity` from `sanity.py`: flag negative prices, per-node hard
outliers (99.9th percentile) and hour-to-hour spikes (`|diff| > 300`
within each node's series sorted by `(nodo, datetime)`), one flag record
per input record. -/
def sanity (df : List TidyRow) : List FlagRow :=
  sanityFlags (nodeP999 df) none (df.insertionSort nodoDtLe)

/-- One row of the `node_stats.parquet` artifact written by `validate`. -/
structure ValNodeStats where
  nodo : String
  n : Nat
  n_nan : Nat
  n_zero : Nat
  min : Option ℚ
  max : Option ℚ
  nan_pct : ℚ
deriving DecidableEq, Repr

/-- The per-node aggregation of `validate`: `n`, `n_nan`,
`n_zero = (s == 0).sum()`, `min`, `max`, `nan_pct = (n_nan / n) * 100.0`. -/
def mkValStats (nd : String) (ps : List (Option ℚ)) : ValNodeStats :=
  { nodo := nd
    n := ps.length
    n_nan := ps.countP (fun p => p.isNone)
    n_zero := ps.countP (fun p => p = some 0)
    min := listMin (ps.filterMap id)
    max := listMax (ps.filterMap id)
    nan_pct := qMul (mkRat (Int.ofNat (ps.countP (fun p => p.isNone))) ps.length) 100 }

/-- The `NodeStats` table `validate` computes from a tidy artifact, one
row per distinct node (`groupby("nodo", dropna=False)`). -/
def valStats (df : List TidyRow) : List ValNodeStats :=
  (nodosOf df).map (fun nd => mkValStats nd (preciosOf df nd))

/-- The number of rows that share their `(datetime, nodo)` key with
another row (`df.duplicated(subset=["datetime", "nodo"], keep=False)`),
reported by `validate` but never fatal. -/
def dupCount (df : List TidyRow) : Nat :=
  df.countP (fun r => df.countP (fun x => keyOf x = keyOf r) ≥ 2)

/-- One file of the directory `validate` works in: either a tidy-schema
table (`datetime`, `nodo`, `precio`) or a `NodeStats`-schema table
(which lacks the `datetime` and `precio` columns). -/
inductive Artifact where
  | tidy (rows : List TidyRow)
  | stats (rows : List ValNodeStats)
deriving DecidableEq, Repr

/-- The errors `validate` can raise: `FileNotFoundError` when the input
path does not exist, and the `ValueError("Faltan columnas ...")` of the
required-column check. -/
inductive ValError where
  | fileNotFound
  | schemaError
deriving DecidableEq, Repr

/-- Reading a file by name from a directory listing. -/
def lookupA : List (String × Artifact) → String → Option Artifact
  | [], _ => none
  | e :: es, n => if e.1 = n then some e.2 else lookupA es n

/-- Writing a file by name into a directory listing, overwriting an
existing entry of that name. -/
def setA : List (String × Artifact) → String → Artifact → List (String × Artifact)
  | [], n, a => [(n, a)]
  | e :: es, n, a => if e.1 = n then (n, a) :: es else e :: setA es n a

/-- The fixed basename `validate` writes its stats to, in the input's own
directory: `parquet_path.parent / "node_stats.parquet"`. -/
def statsName : String := "node_stats.parquet"

/-- The directory `parquet_path.parent`, holding the input artifact and
whatever else is there — including, possibly, a file named
`node_stats.parquet`. -/
structure Dir where
  entries : List (String × Artifact)
deriving DecidableEq, Repr

/-- One run of `validate` on the file `name` of directory `d`: fail if
the path does not exist; fail the required-column check if the file is
not tidy-shaped; otherwise recompute the per-node stats and write them to
`node_stats.parquet` in the same directory — a path that coincides with
the input when the input itself bears that name. -/
def validateRun (d : Dir) (name : String) : Except ValError Dir :=
  match lookupA d.entries name with
  | none => .error .fileNotFound
  | some (.stats _) => .error .schemaError
  | some (.tidy df) => .ok ⟨setA d.entries statsName (.stats (valStats df))⟩

/-- The number of non-null node-column cells of the wide input. -/
def nonNullCells (df : WideDF) : Nat :=
  (df.rows.map (fun r => r.cells.countP (fun c => c ≠ CellValue.null))).sum

/-- The number of node-column cells holding exactly `0`. -/
def zeroCells (df : WideDF) : Nat :=
  (df.rows.map (fun r => r.cells.countP (fun c => c = CellValue.num 0))).sum

/-- Recognizer for non-numeric text cells. -/
def isTextCell : CellValue → Bool
  | .text _ => true
  | _ => false

/-! ### Helper lemmas about `splitCh` -/

/-- The first field of a split is the run of characters before the first
separator. -/
theorem splitCh_headD (sep : Char) :
    ∀ cs : List Char, (splitCh sep cs).headD [] = cs.takeWhile (fun c => !(c == sep))
  | [] => rfl
  | c :: rest => by
    by_cases h : c = sep
    · simp [splitCh, h, List.takeWhile_cons]
    · have hb : (c == sep) = false := by simp [h]
      simp only [splitCh, if_neg h, List.headD_cons, List.takeWhile_cons, hb,
        Bool.not_false, if_true]
      rw [splitCh_headD sep rest]

/-- Reading `getD 1` reads the head of the tail. -/
theorem getD_one_eq_tail_headD {α : Type} (l : List α) (d : α) :
    l.getD 1 d = l.tail.headD d := by
  cases l with
  | nil => rfl
  | cons x xs => cases xs <;> rfl

/-- The second field of a split, when a separator occurs, is the run of
characters strictly between the first separator and the next one. -/
theorem splitCh_getD_one (sep : Char) :
    ∀ cs : List Char, cs.any (fun c => c == sep) = true →
      (splitCh sep cs).getD 1 [] =
        ((cs.dropWhile (fun c => !(c == sep))).drop 1).takeWhile (fun c => !(c == sep))
  | [] => by intro h; simp at h
  | c :: rest => by
    intro h
    by_cases hc : c = sep
    · have h1 : (splitCh sep (c :: rest)).getD 1 [] = (splitCh sep rest).headD [] := by
        simp only [splitCh, if_pos hc]
        rw [getD_one_eq_tail_headD, List.tail_cons]
      have h2 : ((c :: rest).dropWhile (fun x => !(x == sep))).drop 1 = rest := by
        have : (!(c == sep)) = false := by simp [hc]
        rw [List.dropWhile_cons]
        simp [this]
      rw [h1, h2, splitCh_headD sep rest]
    · have hcb : (c == sep) = false := by simp [hc]
      have hrest : rest.any (fun x => x == sep) = true := by
        simpa [List.any_cons, hcb] using h
      have h1 : (splitCh sep (c :: rest)).getD 1 [] = (splitCh sep rest).getD 1 [] := by
        simp only [splitCh, if_neg hc]
        rw [getD_one_eq_tail_headD, List.tail_cons, ← getD_one_eq_tail_headD]
      have h2 : (c :: rest).dropWhile (fun x => !(x == sep)) =
          rest.dropWhile (fun x => !(x == sep)) := by
        rw [List.dropWhile_cons]
        simp [hcb]
      rw [h1, h2, splitCh_getD_one sep rest hrest]

/-! ### C5 — Hora normalization -/

/-- C5 counterexample: the claim says that for a cell text containing a
space the result is the substring after the first space truncated to 5
characters, for all such texts including ones with more than one space.
On `"a 12 34"` that rule yields `"12 34"`, but `normalize_hora` (which
takes `split(" ")[1]`, the text up to the *next* space) yields `"12"`. -/
theorem normalize_hora_after_first_space_false :
    normalize_hora (some "a 12 34") ≠
      some (String.mk ((("a 12 34".data.dropWhile (fun c => !(c == ' '))).drop 1).take 5)) ∧
    normalize_hora (some "a 12 34") = some "12" ∧
    String.mk ((("a 12 34".data.dropWhile (fun c => !(c == ' '))).drop 1).take 5) = "12 34" := by
  refine ⟨by decide, by decide, by decide⟩

/-- C5 (amended): for every non-null `Hora` cell text containing a space,
`normalize_hora` returns the run of characters strictly between the first
space and the next space (the second field of a single-space split, which
is empty for two adjacent spaces), truncated to its first 5 characters. -/
theorem normalize_hora_space (s : String)
    (h : s.data.any (fun c => c == ' ') = true) :
    normalize_hora (some s) =
      some (String.mk ((((s.data.dropWhile (fun c => !(c == ' '))).drop 1).takeWhile
        (fun c => !(c == ' '))).take 5)) := by
  simp only [normalize_hora, h, if_true]
  rw [splitCh_getD_one ' ' s.data h]

/-- C5 witness: the amended statement evaluated on a real timestamp-shaped
cell text. -/
theorem normalize_hora_space_witness :
    ("1900-01-01 03:00:00".data.any (fun c => c == ' ') = true) ∧
    normalize_hora (some "1900-01-01 03:00:00") =
      some (String.mk (((("1900-01-01 03:00:00".data.dropWhile (fun c => !(c == ' '))).drop 1).takeWhile
        (fun c => !(c == ' '))).take 5)) :=
  ⟨by decide, normalize_hora_space "1900-01-01 03:00:00" (by decide)⟩

/-! ### C7 — Spike flag exactness -/

/-- C7: on the synthetic single-node hour-by-hour series `[10, 10, 400]`,
the Sanity Checker's `hourly_spike` flags in `(nodo, datetime)` order are
`[false, false, true]`: the first record's undefined difference is not a
spike, the zero difference is not a spike, and `|400 - 10| = 390 > 300`
is; the flag column is computed from the price differences alone,
independent of the `neg_price` and `hard_outlier` columns. -/
theorem sanity_spike_exactness :
    (sanity [⟨0, "A", some 10⟩, ⟨1, "A", some 10⟩, ⟨2, "A", some 400⟩]).map
      (fun f => f.hourly_spike) = [false, false, true] := by decide

/-! ### C8 — Coverage boundary -/

/-- C8: for every node group profiled by the Quality Profiler, a
`nan_pct` of exactly `90.0` yields `is_low_coverage = true`, a `nan_pct`
of exactly `89.999` yields `is_low_coverage = false`, and a `nan_pct` of
exactly `100.0` yields both `is_dead = true` and
`is_low_coverage = true`, where `nan_pct = 100 * n_nan / n`. -/
theorem quality_coverage_boundary (nd : String) (ps : List (Option ℚ)) :
    ((mkStats nd ps).nan_pct = 90 → (mkStats nd ps).is_low_coverage = true) ∧
    ((mkStats nd ps).nan_pct = mkRat 89999 1000 → (mkStats nd ps).is_low_coverage = false) ∧
    ((mkStats nd ps).nan_pct = 100 →
      (mkStats nd ps).is_dead = true ∧ (mkStats nd ps).is_low_coverage = true) := by
  simp only [mkStats]
  refine ⟨fun h => ?_, fun h => ?_, fun h => ?_⟩
  · rw [h]; decide
  · rw [h]; decide
  · rw [h]; exact ⟨by decide, by decide⟩

/-- The `nan_pct` field of the Quality Profiler stats, written out. -/
theorem mkStats_nan_pct (nd : String) (ps : List (Option ℚ)) :
    (mkStats nd ps).nan_pct =
      qMul (mkRat (Int.ofNat (ps.countP (fun p => p.isNone))) ps.length) 100 := rfl

/-- C8 witness: three concrete groups hitting the three boundaries — 9
nulls out of 10 (`nan_pct = 90`), 89999 nulls out of 100000
(`nan_pct = 89.999`), and 1 null out of 1 (`nan_pct = 100`). -/
theorem quality_coverage_boundary_witness :
    (mkStats "a" (List.replicate 9 (none : Option ℚ) ++ [some 1])).is_low_coverage = true ∧
    (mkStats "b" (List.replicate 89999 (none : Option ℚ) ++
      List.replicate 10001 (some 1))).is_low_coverage = false ∧
    ((mkStats "c" [(none : Option ℚ)]).is_dead = true ∧
      (mkStats "c" [(none : Option ℚ)]).is_low_coverage = true) := by
  have hn : (List.replicate 89999 (none : Option ℚ) ++
      List.replicate 10001 (some 1)).countP (fun p : Option ℚ => p.isNone) = 89999 := by
    rw [List.countP_append, List.countP_replicate, List.countP_replicate]
    norm_num
  have hl : (List.replicate 89999 (none : Option ℚ) ++
      List.replicate 10001 (some 1)).length = 100000 := by
    rw [List.length_append, List.length_replicate, List.length_replicate]
  have h2 : (mkStats "b" (List.replicate 89999 (none : Option ℚ) ++
      List.replicate 10001 (some 1))).nan_pct = mkRat 89999 1000 := by
    rw [mkStats_nan_pct, hn, hl]
    decide
  exact ⟨(quality_coverage_boundary "a" _).1 (by decide),
    (quality_coverage_boundary "b" _).2.1 h2,
    (quality_coverage_boundary "c" _).2.2 (by decide)⟩

/-! ### C9 — Validator non-destructiveness and determinism -/

/-- Looking a name up right after writing it returns what was written. -/
theorem lookupA_setA_same :
    ∀ (es : List (String × Artifact)) (n : String) (a : Artifact),
      lookupA (setA es n a) n = some a := by
  intro es
  induction es with
  | nil => intro n a; simp [setA, lookupA]
  | cons e es ih =>
    intro n a
    by_cases h : e.1 = n
    · simp [setA, lookupA, h]
    · simp only [setA, if_neg h, lookupA, if_neg h]
      exact ih n a

/-- Writing one name leaves every other name unchanged. -/
theorem lookupA_setA_other :
    ∀ (es : List (String × Artifact)) (n : String) (a : Artifact) (m : String),
      m ≠ n → lookupA (setA es n a) m = lookupA es m := by
  intro es
  induction es with
  | nil =>
    intro n a m hm
    have hnm : ¬(n = m) := fun h => hm h.symm
    simp [setA, lookupA, hnm]
  | cons e es ih =>
    intro n a m hm
    by_cases h : e.1 = n
    · have hem : ¬(n = m) := fun hnm => hm hnm.symm
      simp [setA, lookupA, h, hem]
    · simp only [setA, if_neg h, lookupA]
      by_cases h2 : e.1 = m
      · simp [h2]
      · simp only [if_neg h2]
        exact ih n a m hm

/-- C9 counterexample: the claim covers every input path, but `validate`
writes its stats to the fixed sibling path `node_stats.parquet`.  Feeding
it a tidy-shaped artifact located at that very path makes the first run
overwrite its own input with the stats table, and the second run then
fails the required-column check — so neither is the input left untouched
nor do two consecutive runs produce identical `NodeStats` output. -/
theorem validate_readonly_deterministic_false :
    validateRun ⟨[(statsName, .tidy [⟨0, "A", some 1⟩])]⟩ statsName =
      .ok ⟨[(statsName, .stats (valStats [⟨0, "A", some 1⟩]))]⟩ ∧
    lookupA [(statsName, Artifact.stats (valStats [⟨0, "A", some 1⟩]))] statsName ≠
      lookupA [(statsName, Artifact.tidy [⟨0, "A", some 1⟩])] statsName ∧
    validateRun ⟨[(statsName, .stats (valStats [⟨0, "A", some 1⟩]))]⟩ statsName =
      .error .schemaError :=
  ⟨by rfl, by decide, by rfl⟩

/-- C9 (amended): for every directory and every tidy-shaped input
artifact in it whose path is not the Validator's own sidecar path
`node_stats.parquet`, two consecutive runs of the Validator both succeed,
leave the input artifact byte-identical to what it was, and write the
identical `NodeStats` sidecar both times (the per-node stats of the
input).  At the sidecar path itself the first run overwrites the input
and the second fails, as the counterexample shows. -/
theorem validate_readonly_deterministic (d : Dir) (name : String) (df : List TidyRow)
    (hname : name ≠ statsName)
    (hread : lookupA d.entries name = some (.tidy df)) :
    ∃ d1 d2, validateRun d name = .ok d1 ∧ validateRun d1 name = .ok d2 ∧
      lookupA d1.entries name = some (.tidy df) ∧
      lookupA d2.entries name = some (.tidy df) ∧
      lookupA d1.entries statsName = some (.stats (valStats df)) ∧
      lookupA d2.entries statsName = some (.stats (valStats df)) := by
  have h1 : validateRun d name = .ok ⟨setA d.entries statsName (.stats (valStats df))⟩ := by
    rw [validateRun, hread]
  have hr1 : lookupA (setA d.entries statsName (.stats (valStats df))) name =
      some (.tidy df) := by
    rw [lookupA_setA_other d.entries statsName _ name hname, hread]
  have h2 : validateRun ⟨setA d.entries statsName (.stats (valStats df))⟩ name =
      .ok ⟨setA (setA d.entries statsName (.stats (valStats df))) statsName
        (.stats (valStats df))⟩ := by
    rw [validateRun]
    simp only [hr1]
  refine ⟨_, _, h1, h2, hr1, ?_, ?_, ?_⟩
  · rw [lookupA_setA_other _ statsName _ name hname]
    exact hr1
  · exact lookupA_setA_same d.entries statsName _
  · exact lookupA_setA_same _ statsName _

/-- C9 witness: a directory holding the tidy input under its usual name
`precios_nodales.parquet`, distinct from the sidecar path. -/
theorem validate_readonly_deterministic_witness :
    ∃ d1 d2,
      validateRun ⟨[("precios_nodales.parquet", .tidy [⟨0, "A", some 1⟩])]⟩
        "precios_nodales.parquet" = .ok d1 ∧
      validateRun d1 "precios_nodales.parquet" = .ok d2 ∧
      lookupA d1.entries "precios_nodales.parquet" =
        some (.tidy [⟨0, "A", some 1⟩]) ∧
      lookupA d2.entries "precios_nodales.parquet" =
        some (.tidy [⟨0, "A", some 1⟩]) ∧
      lookupA d1.entries statsName = some (.stats (valStats [⟨0, "A", some 1⟩])) ∧
      lookupA d2.entries statsName = some (.stats (valStats [⟨0, "A", some 1⟩])) :=
  validate_readonly_deterministic ⟨[("precios_nodales.parquet", .tidy [⟨0, "A", some 1⟩])]⟩
    "precios_nodales.parquet" [⟨0, "A", some 1⟩] (by decide) (by rfl)

/-! ### C2 and C3 — Normalizer null propagation and hard stop -/

/-- C2: for every raw row of the wide input whose `Fecha` or `Hora` cell
is null, the concatenated datetime string is null (the null propagates
through normalization and concatenation — no default is substituted and
no other error arises), the parsed timestamp is therefore `NaT`, and
`run_etl` consequently aborts with the unparseable-timestamp `DataError`
of step 6. -/
theorem etl_null_propagation (df : WideDF) (r : RawRow) (hr : r ∈ df.rows)
    (h : r.fecha = none ∨ r.hora = none) :
    rowDtStr r = none ∧ rowDt r = none ∧ ∃ e, run_etl df = .error e := by
  have hstr : rowDtStr r = none := by
    rcases h with h | h
    · simp [rowDtStr, normalize_fecha, h]
    · cases hf : normalize_fecha r.fecha <;> simp [rowDtStr, normalize_hora, h, hf]
  have hdt : rowDt r = none := by rw [rowDt, hstr]; rfl
  have hbad : r ∈ badRows df := List.mem_filter.mpr ⟨hr, by simp [hdt]⟩
  have hne : (badRows df).isEmpty = false := by
    cases hb : badRows df with
    | nil => rw [hb] at hbad; cases hbad
    | cons a as => rfl
  exact ⟨hstr, hdt, ⟨⟨((badRows df).map (fun x => (x.fecha, x.hora))).take 10⟩, by
    simp [run_etl, hne]⟩⟩

/-- C2 witness: a one-row input with a null `Fecha`. -/
theorem etl_null_propagation_witness :
    rowDtStr ⟨none, some "03:00", [.num 5]⟩ = none ∧
    rowDt ⟨none, some "03:00", [.num 5]⟩ = none ∧
    ∃ e, run_etl ⟨["N1"], [⟨none, some "03:00", [.num 5]⟩]⟩ = .error e :=
  etl_null_propagation ⟨["N1"], [⟨none, some "03:00", [.num 5]⟩]⟩
    ⟨none, some "03:00", [.num 5]⟩ (by simp) (Or.inl rfl)

/-- C3: whenever at least one row's constructed timestamp fails to parse,
`run_etl` aborts with a `DataError` surfacing at most 10 offending raw
`(Fecha, Hora)` pairs (the first 10 unparseable rows), and writes no
output artifact: the previously persisted tidy artifact is left exactly
as it was. -/
theorem etl_hard_stop (df : WideDF) (st : EtlStore)
    (h : ∃ r ∈ df.rows, rowDt r = none) :
    ∃ e, run_etl df = .error e ∧
      e.pairs.length ≤ 10 ∧
      e.pairs = ((badRows df).map (fun r => (r.fecha, r.hora))).take 10 ∧
      runEtlWrite df st = st := by
  obtain ⟨r, hr, hdt⟩ := h
  have hbad : r ∈ badRows df := List.mem_filter.mpr ⟨hr, by simp [hdt]⟩
  have hne : (badRows df).isEmpty = false := by
    cases hb : badRows df with
    | nil => rw [hb] at hbad; cases hbad
    | cons a as => rfl
  have herr : run_etl df =
      .error ⟨((badRows df).map (fun r => (r.fecha, r.hora))).take 10⟩ := by
    simp [run_etl, hne]
  exact ⟨_, herr, List.length_take_le 10 _, rfl, by simp [runEtlWrite, herr]⟩

/-- C3 witness: a one-row input with an unparseable timestamp, run against
a store already holding a previous artifact. -/
theorem etl_hard_stop_witness :
    ∃ e, run_etl ⟨["N1"], [⟨some "garbage", some "03:00", [.num 5]⟩]⟩ = .error e ∧
      e.pairs.length ≤ 10 ∧
      e.pairs = ((badRows ⟨["N1"], [⟨some "garbage", some "03:00", [.num 5]⟩]⟩).map
        (fun r => (r.fecha, r.hora))).take 10 ∧
      runEtlWrite ⟨["N1"], [⟨some "garbage", some "03:00", [.num 5]⟩]⟩
        ⟨some [⟨0, "X", none⟩]⟩ = ⟨some [⟨0, "X", none⟩]⟩ :=
  etl_hard_stop ⟨["N1"], [⟨some "garbage", some "03:00", [.num 5]⟩]⟩
    ⟨some [⟨0, "X", none⟩]⟩ ⟨⟨some "garbage", some "03:00", [.num 5]⟩, by simp, by rfl⟩

/-! ### C10 — null prices are never flagged -/

/-- A null price never raises the spike flag on its own record. -/
theorem spikeOf_precio_none (prev : Option TidyRow) (r : TidyRow)
    (h : r.precio = none) : spikeOf prev r = false := by
  cases prev with
  | none => rfl
  | some p =>
    simp only [spikeOf]
    by_cases hn : p.nodo = r.nodo
    · rw [if_pos hn]
      cases hpp : p.precio <;> simp [diffAbs, h, hpp]
    · rw [if_neg hn]

/-- A null price on the previous record makes the next difference NaN, so
the next record is not flagged as a spike. -/
theorem spikeOf_prev_none (p : TidyRow) (r : TidyRow)
    (h : p.precio = none) : spikeOf (some p) r = false := by
  simp only [spikeOf]
  by_cases hn : p.nodo = r.nodo
  · rw [if_pos hn]
    simp [diffAbs, h]
  · rw [if_neg hn]

/-- Every emitted flag record with a null price has all three flags
`false`, whatever the preceding record and thresholds are. -/
theorem sanityFlags_null_all_false (p999 : String → Option ℚ) :
    ∀ (l : List TidyRow) (prev : Option TidyRow) (fr : FlagRow),
      fr ∈ sanityFlags p999 prev l → fr.precio = none →
      fr.neg_price = false ∧ fr.hard_outlier = false ∧ fr.hourly_spike = false := by
  intro l
  induction l with
  | nil => intro prev fr hfr; cases hfr
  | cons r rs ih =>
    intro prev fr hfr hp
    rcases List.mem_cons.mp hfr with he | hm
    · subst he
      have hrp : r.precio = none := hp
      refine ⟨?_, ?_, ?_⟩
      · show negPrice r.precio = false
        rw [hrp]; rfl
      · show hardOutlier r.precio (p999 r.nodo) = false
        rw [hrp]; cases p999 r.nodo <;> rfl
      · exact spikeOf_precio_none prev r hrp
    · exact ih (some r) fr hm hp

/-- The flags artifact has one record per input record. -/
theorem sanityFlags_length (p999 : String → Option ℚ) :
    ∀ (l : List TidyRow) (prev : Option TidyRow),
      (sanityFlags p999 prev l).length = l.length := by
  intro l
  induction l with
  | nil => intro prev; rfl
  | cons r rs ih => intro prev; simp [sanityFlags, ih (some r)]

/-- After a record with a null price, the immediately following record of
the sorted dataset is never flagged as a spike. -/
theorem sanityFlags_spike_after_null (p999 : String → Option ℚ) :
    ∀ (l : List TidyRow) (prev : Option TidyRow) (i : Nat)
      (h1 : i + 1 < (sanityFlags p999 prev l).length),
      ((sanityFlags p999 prev l).get ⟨i, Nat.lt_of_succ_lt h1⟩).precio = none →
      ((sanityFlags p999 prev l).get ⟨i + 1, h1⟩).hourly_spike = false := by
  intro l
  induction l with
  | nil => intro prev i h1; simp [sanityFlags] at h1
  | cons r rs ih =>
    intro prev i h1 hp
    cases i with
    | zero =>
      cases rs with
      | nil => simp [sanityFlags] at h1
      | cons r2 rs2 =>
        have hrp : r.precio = none := hp
        show ((sanityFlags p999 prev (r :: r2 :: rs2)).get ⟨1, h1⟩).hourly_spike = false
        simp only [sanityFlags, List.get_cons_succ, List.get_cons_zero]
        exact spikeOf_prev_none r r2 hrp
    | succ j =>
      have hlen : (sanityFlags p999 prev (r :: rs)).length =
          (sanityFlags p999 (some r) rs).length + 1 := by simp [sanityFlags]
      have h1t : j + 1 < (sanityFlags p999 (some r) rs).length := by omega
      have hp2 : ((sanityFlags p999 (some r) rs).get
          ⟨j, Nat.lt_of_succ_lt h1t⟩).precio = none := by
        have hcp := hp
        simp only [sanityFlags, List.get_cons_succ] at hcp
        exact hcp
      have hg := ih (some r) j h1t hp2
      simp only [sanityFlags, List.get_cons_succ]
      exact hg

/-- C10: for every tidy input of the Sanity Checker, every output flag
record whose `precio` is null has `neg_price = false`,
`hard_outlier = false` and `hourly_spike = false` (null comparisons and
null differences are treated as not-flagged, never as true), and a null
`precio` also forces `hourly_spike = false` on the immediately following
record of the same node in the sorted output. -/
theorem sanity_null_never_flagged (df : List TidyRow) :
    (∀ fr ∈ sanity df, fr.precio = none →
      fr.neg_price = false ∧ fr.hard_outlier = false ∧ fr.hourly_spike = false) ∧
    (∀ (i : Nat) (h1 : i + 1 < (sanity df).length),
      ((sanity df).get ⟨i, Nat.lt_of_succ_lt h1⟩).precio = none →
      ((sanity df).get ⟨i + 1, h1⟩).nodo = ((sanity df).get ⟨i, Nat.lt_of_succ_lt h1⟩).nodo →
      ((sanity df).get ⟨i + 1, h1⟩).hourly_spike = false) := by
  constructor
  · intro fr hfr hp
    exact sanityFlags_null_all_false (nodeP999 df) (df.insertionSort nodoDtLe) none fr hfr hp
  · intro i h1 hp _
    exact sanityFlags_spike_after_null (nodeP999 df) (df.insertionSort nodoDtLe) none i h1 hp

/-- C10 witness: a two-record single-node dataset whose first record has a
null price — no flag on the first record, no spike on the second. -/
theorem sanity_null_never_flagged_witness :
    ((sanity [⟨0, "A", none⟩, ⟨1, "A", some 5⟩]).get ⟨0, by decide⟩).precio = none ∧
    ((sanity [⟨0, "A", none⟩, ⟨1, "A", some 5⟩]).get ⟨0, by decide⟩).neg_price = false ∧
    ((sanity [⟨0, "A", none⟩, ⟨1, "A", some 5⟩]).get ⟨0, by decide⟩).hard_outlier = false ∧
    ((sanity [⟨0, "A", none⟩, ⟨1, "A", some 5⟩]).get ⟨0, by decide⟩).hourly_spike = false ∧
    ((sanity [⟨0, "A", none⟩, ⟨1, "A", some 5⟩]).get ⟨1, by decide⟩).hourly_spike = false := by
  have h := sanity_null_never_flagged [⟨0, "A", none⟩, ⟨1, "A", some 5⟩]
  have h0 : ((sanity [⟨0, "A", none⟩, ⟨1, "A", some 5⟩]).get ⟨0, by decide⟩).precio = none := by
    decide
  obtain ⟨ha, hb, hc⟩ := h.1 ((sanity [⟨0, "A", none⟩, ⟨1, "A", some 5⟩]).get ⟨0, by decide⟩)
    (List.get_mem _ _ _) h0
  exact ⟨h0, ha, hb, hc, h.2 0 (by decide) h0 (by decide)⟩

/-! ### C6 — Quality Profiler node preservation -/

/-- Dropping duplicates never loses a key entirely: every row of the
input has a surviving row with the same `(datetime, nodo)` key. -/
theorem dropDup_preserves_key :
    ∀ (l : List TidyRow) (r : TidyRow), r ∈ l →
      ∃ x ∈ dropDupKeepLast l, keyOf x = keyOf r := by
  intro l
  induction l with
  | nil => intro r hr; cases hr
  | cons a as ih =>
    intro r hr
    rcases List.mem_cons.mp hr with he | hm
    · subst he
      by_cases hc : as.any (fun x => keyOf x = keyOf r) = true
      · obtain ⟨y, hy, hky⟩ := List.any_eq_true.mp hc
        obtain ⟨x, hx, hkx⟩ := ih y hy
        refine ⟨x, ?_, hkx.trans (of_decide_eq_true hky)⟩
        simp only [dropDupKeepLast, if_pos hc]
        exact hx
      · refine ⟨r, ?_, rfl⟩
        simp only [dropDupKeepLast, if_neg hc]
        exact List.mem_cons_self r _
    · obtain ⟨x, hx, hkx⟩ := ih r hm
      by_cases hc : as.any (fun x => keyOf x = keyOf a) = true
      · refine ⟨x, ?_, hkx⟩
        simp only [dropDupKeepLast, if_pos hc]
        exact hx
      · refine ⟨x, ?_, hkx⟩
        simp only [dropDupKeepLast, if_neg hc]
        exact List.mem_cons_of_mem a hx

/-- C6: for every tidy input, the node column of the stats sidecar is
exactly the distinct-node list of the deduplicated output dataset, and
every node occurring anywhere in the input still occurs in the stats —
even a node all of whose prices are null. -/
theorem quality_stats_node_preservation (df : List TidyRow) :
    ((cleanStats df).map (fun s => s.nodo) = nodosOf (cleanDedup df)) ∧
    (∀ nd : String, (∃ r ∈ df, r.nodo = nd) →
      ∃ s ∈ cleanStats df, s.nodo = nd) := by
  constructor
  · rw [cleanStats, List.map_map]
    have hcomp : ((fun s : NodeQualityStats => s.nodo) ∘
        fun nd => mkStats nd (preciosOf (cleanDedup df) nd)) = fun nd => nd := rfl
    rw [hcomp]
    exact List.map_id' (nodosOf (cleanDedup df))
  · rintro nd ⟨r, hr, hnd⟩
    have hrs : r ∈ sortByDatetime df := by
      rw [sortByDatetime, List.mem_insertionSort]
      exact hr
    obtain ⟨x, hx, hkey⟩ := dropDup_preserves_key (sortByDatetime df) r hrs
    have hxn : x.nodo = nd := by
      have := congrArg Prod.snd hkey
      simpa [keyOf, hnd] using this
    have hnd_mem : nd ∈ nodosOf (cleanDedup df) :=
      List.mem_dedup.mpr (List.mem_map.mpr ⟨x, hx, hxn⟩)
    exact ⟨mkStats nd (preciosOf (cleanDedup df) nd),
      List.mem_map.mpr ⟨nd, hnd_mem, rfl⟩, rfl⟩

/-- C6 witness: a two-node input whose node `"A"` is 100% null; `"A"`
still appears in the stats, and the stats' node column matches the
deduplicated dataset's distinct nodes. -/
theorem quality_stats_node_preservation_witness :
    ((cleanStats [⟨0, "A", none⟩, ⟨0, "B", some 1⟩]).map (fun s => s.nodo) =
      nodosOf (cleanDedup [⟨0, "A", none⟩, ⟨0, "B", some 1⟩])) ∧
    (∃ s ∈ cleanStats [⟨0, "A", none⟩, ⟨0, "B", some 1⟩], s.nodo = "A") :=
  ⟨(quality_stats_node_preservation _).1,
    (quality_stats_node_preservation _).2 "A" ⟨⟨0, "A", none⟩, by simp, rfl⟩⟩

/-! ### C1 — Quality Profiler deduplication -/

/-- Taking `getLast?` skips the head when the tail is nonempty. -/
theorem getLast?_cons_of_ne_nil {α : Type} (a : α) {l : List α} (h : l ≠ []) :
    (a :: l).getLast? = l.getLast? := by
  cases l with
  | nil => exact absurd rfl h
  | cons b bs => simp [List.getLast?_cons_cons]

/-- Filtering one `(datetime, nodo)` key out of `dropDupKeepLast` leaves
exactly the last occurrence of that key in the list, if any. -/
theorem dropDup_filter_key (k : Nat × String) :
    ∀ l : List TidyRow,
      (dropDupKeepLast l).filter (fun r => keyOf r = k) =
        ((l.filter (fun r => keyOf r = k)).getLast?).toList := by
  intro l
  induction l with
  | nil => rfl
  | cons r rs ih =>
    by_cases hc : rs.any (fun x => keyOf x = keyOf r) = true
    · simp only [dropDupKeepLast, if_pos hc]
      by_cases hk : keyOf r = k
      · obtain ⟨y, hy, hky⟩ := List.any_eq_true.mp hc
        have hyk : keyOf y = k := (of_decide_eq_true hky).trans hk
        have hne : rs.filter (fun x => keyOf x = k) ≠ [] := by
          intro hnil
          have hmem : y ∈ rs.filter (fun x => keyOf x = k) :=
            List.mem_filter.mpr ⟨hy, by simp [hyk]⟩
          rw [hnil] at hmem
          cases hmem
        have hfc : (r :: rs).filter (fun x => keyOf x = k) =
            r :: rs.filter (fun x => keyOf x = k) := by
          simp [List.filter_cons, hk]
        rw [hfc, getLast?_cons_of_ne_nil r hne]
        exact ih
      · have hfc : (r :: rs).filter (fun x => keyOf x = k) =
            rs.filter (fun x => keyOf x = k) := by
          simp [List.filter_cons, hk]
        rw [hfc]
        exact ih
    · simp only [dropDupKeepLast, if_neg hc]
      by_cases hk : keyOf r = k
      · have hall : ∀ y ∈ rs, ¬(keyOf y = keyOf r) := by
          intro y hy hky
          exact hc (List.any_eq_true.mpr ⟨y, hy, by simp [hky]⟩)
        have hfil : rs.filter (fun x => keyOf x = k) = [] := by
          rw [List.filter_eq_nil_iff]
          intro y hy
          simp only [decide_eq_true_eq]
          exact fun hyk => hall y hy (hyk.trans hk.symm)
        have hdfil : (dropDupKeepLast rs).filter (fun x => keyOf x = k) = [] := by
          rw [ih, hfil]
          rfl
        have hfc : (r :: rs).filter (fun x => keyOf x = k) =
            r :: rs.filter (fun x => keyOf x = k) := by
          simp [List.filter_cons, hk]
        rw [hfc, hfil]
        simp [List.filter_cons, hk, hdfil]
      · have hfc : (r :: rs).filter (fun x => keyOf x = k) =
            rs.filter (fun x => keyOf x = k) := by
          simp [List.filter_cons, hk]
        rw [hfc, ← ih]
        simp [List.filter_cons, hk]

/-- Rows of the deduplicated list all come from the input list. -/
theorem mem_of_mem_dropDup :
    ∀ (l : List TidyRow) (r : TidyRow), r ∈ dropDupKeepLast l → r ∈ l := by
  intro l
  induction l with
  | nil => intro r hr; cases hr
  | cons a as ih =>
    intro r hr
    by_cases hc : as.any (fun x => keyOf x = keyOf a) = true
    · rw [dropDupKeepLast, if_pos hc] at hr
      exact List.mem_cons_of_mem a (ih r hr)
    · rw [dropDupKeepLast, if_neg hc] at hr
      rcases List.mem_cons.mp hr with he | hm
      · exact he ▸ List.mem_cons_self a as
      · exact List.mem_cons_of_mem a (ih r hm)

/-- The representative execution `sortByDatetime` is one of the
executions the `sort_values` contract allows. -/
theorem sortByDatetime_isSortValues (df : List TidyRow) :
    SortValuesDatetime df (sortByDatetime df) :=
  ⟨List.perm_insertionSort _ df, List.sorted_insertionSort _ df⟩

/-- C1 counterexample: the claim pins the surviving duplicate down to the
chronologically last occurrence in the pre-sort ordering, with ties among
equal datetimes broken by sort stability.  `clean.py` sorts with pandas'
default `kind='quicksort'`, which is documented as unstable, so the code
only guarantees some datetime-nondecreasing permutation.  On the input
`[⟨0,"A",1⟩, ⟨0,"A",2⟩]` the reversed order is such a permutation, and
deduplicating it keeps `⟨0,"A",1⟩` — not the last pre-sort occurrence
`⟨0,"A",2⟩` that the claim requires. -/
theorem clean_dedup_last_write_wins_false :
    SortValuesDatetime [⟨0, "A", some 1⟩, ⟨0, "A", some 2⟩]
      [⟨0, "A", some 2⟩, ⟨0, "A", some 1⟩] ∧
    dropDupKeepLast [⟨0, "A", some 2⟩, ⟨0, "A", some 1⟩] = [⟨0, "A", some 1⟩] ∧
    (([⟨0, "A", some 1⟩, ⟨0, "A", some 2⟩] : List TidyRow).filter
      (fun r => keyOf r = (0, "A"))).getLast? = some ⟨0, "A", some 2⟩ ∧
    (⟨0, "A", some 1⟩ : TidyRow) ≠ ⟨0, "A", some 2⟩ :=
  ⟨⟨by decide, by decide⟩, by decide, by decide, by decide⟩

/-- C1 (amended): for every tidy input and every execution of the sort
that the `sort_values` contract allows (any datetime-nondecreasing
permutation — the default quicksort is unstable, so the tie order among
equal-datetime rows is unspecified), the deduplicated output contains
only rows of the input, and for each `(datetime, nodo)` key present in
the input exactly one record survives, which is one of the input's
occurrences of that key.  Which occurrence survives is decided by the
sort's tie order and is not fixed by the code: the claimed
last-pre-sort-occurrence tie-break holds only for a stable tie order. -/
theorem clean_dedup_one_per_key (df out : List TidyRow)
    (hsv : SortValuesDatetime df out) (k : Nat × String) :
    (∀ r ∈ dropDupKeepLast out, r ∈ df) ∧
    ((∃ r ∈ df, keyOf r = k) →
      ∃ r, (dropDupKeepLast out).filter (fun x => keyOf x = k) = [r] ∧
        r ∈ df ∧ keyOf r = k) := by
  obtain ⟨hperm, _⟩ := hsv
  constructor
  · intro r hr
    exact hperm.mem_iff.mp (mem_of_mem_dropDup out r hr)
  · rintro ⟨r0, hr0, hk0⟩
    have hro : r0 ∈ out := hperm.mem_iff.mpr hr0
    have hne : out.filter (fun x => keyOf x = k) ≠ [] := by
      intro h0
      have hmem : r0 ∈ out.filter (fun x => keyOf x = k) :=
        List.mem_filter.mpr ⟨hro, by simp [hk0]⟩
      rw [h0] at hmem
      cases hmem
    obtain ⟨x, hx⟩ : ∃ x, (out.filter (fun y => keyOf y = k)).getLast? = some x := by
      cases hgl : (out.filter (fun y => keyOf y = k)).getLast? with
      | none => exact absurd (List.getLast?_eq_none_iff.mp hgl) hne
      | some x => exact ⟨x, rfl⟩
    have hxs : x ∈ out.filter (fun y => keyOf y = k) := by
      obtain ⟨hne2, hx_eq⟩ := List.mem_getLast?_eq_getLast (Option.mem_def.mpr hx)
      exact hx_eq ▸ List.getLast_mem hne2
    obtain ⟨hxo, hxk⟩ := List.mem_filter.mp hxs
    refine ⟨x, ?_, hperm.mem_iff.mp hxo, of_decide_eq_true hxk⟩
    rw [dropDup_filter_key k out, hx]
    rfl

/-- C1 witness: the amended statement run on a concrete duplicated input
with the identity (already sorted) execution. -/
theorem clean_dedup_one_per_key_witness :
    (∀ r ∈ dropDupKeepLast [⟨0, "A", some 1⟩, ⟨0, "A", some 2⟩],
      r ∈ ([⟨0, "A", some 1⟩, ⟨0, "A", some 2⟩] : List TidyRow)) ∧
    ∃ r, (dropDupKeepLast [⟨0, "A", some 1⟩, ⟨0, "A", some 2⟩]).filter
        (fun x => keyOf x = (0, "A")) = [r] ∧
      r ∈ ([⟨0, "A", some 1⟩, ⟨0, "A", some 2⟩] : List TidyRow) ∧ keyOf r = (0, "A") := by
  have h := clean_dedup_one_per_key [⟨0, "A", some 1⟩, ⟨0, "A", some 2⟩]
    [⟨0, "A", some 1⟩, ⟨0, "A", some 2⟩] ⟨by decide, by decide⟩ (0, "A")
  exact ⟨h.1, h.2 ⟨⟨0, "A", some 2⟩, by decide, by decide⟩⟩

/-! ### C4 — Reshape conservation -/

/-- Summing a column-indexed count grid per column equals summing it per
row (each cell of a rectangular grid is counted exactly once). -/
theorem countP_eq_sum_range (p : CellValue → Bool) :
    ∀ cs : List CellValue,
      ((List.range cs.length).map
        (fun j => if p (cs.getD j CellValue.null) = true then 1 else 0)).sum
        = cs.countP p := by
  intro cs
  induction cs with
  | nil => rfl
  | cons c cs ih =>
    rw [List.length_cons, List.range_succ_eq_map, List.map_cons, List.sum_cons, List.map_map]
    rw [show ((fun j => if p ((c :: cs).getD j CellValue.null) = true then 1 else 0) ∘ Nat.succ)
        = (fun j => if p (cs.getD j CellValue.null) = true then 1 else 0) from rfl]
    rw [ih, List.countP_cons, List.getD_cons_zero]
    by_cases hp : p c = true <;> simp [hp, Nat.add_comm]

/-- Column-major counting over the reshaped grid equals row-major
counting over the original cells, for rectangular inputs. -/
theorem countP_grid_swap (p : CellValue → Bool) (m : Nat) :
    ∀ rows : List RawRow, (∀ r ∈ rows, r.cells.length = m) →
      ((List.range m).map
        (fun j => rows.countP (fun r => p (r.cells.getD j CellValue.null)))).sum
        = (rows.map (fun r => r.cells.countP p)).sum := by
  intro rows
  induction rows with
  | nil => intro _; simp
  | cons r rs ih =>
    intro hw
    simp only [List.countP_cons, List.map_cons, List.sum_cons]
    rw [List.sum_map_add, ih (fun x hx => hw x (List.mem_cons_of_mem r hx))]
    have hr : r.cells.length = m := hw r (List.mem_cons_self r rs)
    rw [← hr, countP_eq_sum_range p r.cells]
    omega

/-- On a cell list free of text cells, the non-null coerced prices plus
the zero cells account exactly for the non-null cells. -/
theorem countP_cells_split :
    ∀ cs : List CellValue, (∀ c ∈ cs, isTextCell c = false) →
      cs.countP (fun c => (zeroToNull (toNumeric c)).isSome)
        + cs.countP (fun c => c = CellValue.num 0)
        = cs.countP (fun c => c ≠ CellValue.null) := by
  intro cs
  induction cs with
  | nil => intro _; rfl
  | cons c cs ih =>
    intro ht
    have hcs := ih (fun x hx => ht x (List.mem_cons_of_mem c hx))
    simp only [List.countP_cons]
    cases c with
    | null => simp [zeroToNull, toNumeric] at hcs ⊢; omega
    | num q =>
      by_cases hq : q = 0
      · subst hq; simp [zeroToNull, toNumeric] at hcs ⊢; omega
      · simp [zeroToNull, toNumeric, hq] at hcs ⊢; omega
    | text s =>
      have := ht (CellValue.text s) (List.mem_cons_self _ _)
      simp [isTextCell] at this

/-- C4: for every rectangular wide input whose node-column cells are
numeric or blank (the stated interface assumption), and which the
Normalizer accepts, the number of non-null `precio` values of the tidy
output plus the number of cells holding exactly `0` (nulled by design)
equals the number of non-null node-column cells of the input — the
reshape conserves every cell. -/
theorem etl_reshape_conservation (df : WideDF) (out : List TidyRow)
    (hw : ∀ r ∈ df.rows, r.cells.length = df.nodeCols.length)
    (ht : ∀ r ∈ df.rows, ∀ c ∈ r.cells, isTextCell c = false)
    (hok : run_etl df = .ok out) :
    out.countP (fun t => t.precio.isSome) + zeroCells df = nonNullCells df := by
  have hout : out = meltCoerce df := by
    rw [run_etl] at hok
    by_cases hb : (badRows df).isEmpty
    · rw [if_pos hb] at hok
      injection hok with h
      exact h.symm
    · rw [if_neg hb] at hok
      exact Except.noConfusion hok
  subst hout
  rw [meltCoerce, List.countP_flatten, List.map_map]
  have hmapeq : (List.range df.nodeCols.length).map
      (List.countP (fun t : TidyRow => t.precio.isSome) ∘ (fun j => df.rows.map (fun r =>
        ({ datetime := (rowDt r).getD 0, nodo := df.nodeCols.getD j "",
           precio := zeroToNull (toNumeric (r.cells.getD j CellValue.null)) } : TidyRow)))) =
      (List.range df.nodeCols.length).map (fun j => df.rows.countP
        (fun r => (zeroToNull (toNumeric (r.cells.getD j CellValue.null))).isSome)) := by
    apply List.map_congr_left
    intro j _
    rw [Function.comp_apply, List.countP_map]
    rfl
  rw [hmapeq,
    countP_grid_swap (fun c => (zeroToNull (toNumeric c)).isSome) df.nodeCols.length df.rows hw,
    nonNullCells, zeroCells, ← List.sum_map_add]
  exact congrArg List.sum (List.map_congr_left (fun r hr => countP_cells_split r.cells (ht r hr)))

/-- C4 witness: a one-row, two-node input with one zero cell and one
ordinary price — one non-null `precio` comes out, the zero cell is
accounted for, and the counts balance. -/
theorem etl_reshape_conservation_witness :
    run_etl ⟨["N1", "N2"], [⟨some "2024-05-01", some "03:00", [.num 0, .num 7]⟩]⟩ =
      .ok [⟨(((2024 * 12 + 5) * 31 + 1) * 24 + 3) * 60, "N1", none⟩,
           ⟨(((2024 * 12 + 5) * 31 + 1) * 24 + 3) * 60, "N2", some 7⟩] ∧
    ([⟨(((2024 * 12 + 5) * 31 + 1) * 24 + 3) * 60, "N1", none⟩,
      ⟨(((2024 * 12 + 5) * 31 + 1) * 24 + 3) * 60, "N2", some 7⟩] : List TidyRow).countP
        (fun t => t.precio.isSome)
      + zeroCells ⟨["N1", "N2"], [⟨some "2024-05-01", some "03:00", [.num 0, .num 7]⟩]⟩
      = nonNullCells ⟨["N1", "N2"], [⟨some "2024-05-01", some "03:00", [.num 0, .num 7]⟩]⟩ :=
  ⟨by rfl,
    etl_reshape_conservation
      ⟨["N1", "N2"], [⟨some "2024-05-01", some "03:00", [.num 0, .num 7]⟩]⟩
      [⟨(((2024 * 12 + 5) * 31 + 1) * 24 + 3) * 60, "N1", none⟩,
       ⟨(((2024 * 12 + 5) * 31 + 1) * 24 + 3) * 60, "N2", some 7⟩]
      (by decide) (by decide) (by rfl)⟩
